import Mathlib

set_option autoImplicit false

/- Shallow embedding of the Windows preferences store of akvirtualcamera
   (src/dshow/PlatformUtils/src/preferences.cpp).

   The Windows registry under HKEY_CURRENT_USER is modelled as an association
   list of entries (container path, value name, typed value).  Container paths
   are modelled as lists of path segments: the C++ code addresses containers by
   backslash-separated strings under the fixed REG_PREFIX root, and every
   segment the code produces (literals such as "Cameras", "Formats", and
   decimal numbers from std::to_string) is backslash-free, so segment lists and
   the container strings the code builds are in bijection.  Empty containers
   are not modelled: a container exists iff some value is stored at or below
   it.  Backend failures other than "key/container absent" are not modelled,
   except in moveEx, which exposes the create/copy outcomes that
   Preferences::move branches on. -/

namespace AkVCam

/-- A typed registry value: REG_SZ (string) or REG_DWORD (32-bit payload). -/
inductive RegVal where
  | str (s : String)
  | dword (d : Nat)
deriving DecidableEq

/-- One registry entry: a named value stored inside a container. -/
structure RegEntry where
  container : List String
  name : String
  val : RegVal
deriving DecidableEq

/-- The registry state: an association list of entries; reads take the first
match, writes replace the matching entry. -/
abbrev Registry := List RegEntry

/-- First value stored under container `c` with name `n`, if any. -/
def getValue : Registry → List String → String → Option RegVal
  | [], _, _ => none
  | e :: es, c, n => if e.container = c ∧ e.name = n then some e.val else getValue es c n

/-- Remove every entry named `n` in container `c` (RegDeleteValueA). -/
def eraseValue : Registry → List String → String → Registry
  | [], _, _ => []
  | e :: es, c, n =>
    if e.container = c ∧ e.name = n then eraseValue es c n else e :: eraseValue es c n

/-- Store value `v` under `(c, n)`, replacing any previous entry
(RegSetValueExA after RegCreateKeyExA). -/
def setValue (reg : Registry) (c : List String) (n : String) (v : RegVal) : Registry :=
  ⟨c, n, v⟩ :: eraseValue reg c n

/-- Does the entry `e` live at or below the container `root`? -/
def underTree (root : List String) (e : RegEntry) : Bool :=
  root.isPrefixOf e.container

/-- Modelled from the spec: `deleteTree` (utils.cpp, not under src/) deletes a
container and everything beneath it, recursively (spec 4.3 deleteKey on a
container). -/
def deleteTree : Registry → List String → Registry
  | [], _ => []
  | e :: es, root =>
    if underTree root e then deleteTree es root else e :: deleteTree es root

/-- Does the container `c` exist?  In this model a container exists iff some
value is stored at or below it (RegOpenKeyExA succeeds). -/
def containerExists (reg : Registry) (c : List String) : Bool :=
  reg.any (fun e => underTree c e)

/-- Apply a list of writes in order (later writes win). -/
def applyWrites (reg : Registry) (ws : List RegEntry) : Registry :=
  ws.foldl (fun r e => setValue r e.container e.name e.val) reg

/-- Modelled from the spec: `copyTree` (utils.cpp, not under src/) recursively
duplicates every value and nested container from the source container into the
destination container (spec 4.3 copySubtree); values already present in the
destination under colliding names are overwritten, the rest are kept. -/
def copyTree (reg : Registry) (src dst : List String) : Registry :=
  applyWrites reg
    ((reg.filter (underTree src)).map
      (fun e => ⟨dst ++ e.container.drop src.length, e.name, e.val⟩))

/-- Fuel-driven digit extraction (structural recursion so that the kernel can
evaluate it; the fuel is always sufficient, see natDigits_eq). -/
def natDigitsAux : Nat → Nat → List Char
  | 0, _ => []
  | fuel + 1, n =>
    if n < 10 then [Nat.digitChar n]
    else natDigitsAux fuel (n / 10) ++ [Nat.digitChar (n % 10)]

/-- Decimal digits of a natural number, mirroring std::to_string. -/
def natDigits (n : Nat) : List Char := natDigitsAux (n + 1) n

/-- Decimal string of a natural number (std::to_string on a non-negative). -/
def natStr (n : Nat) : String := ⟨natDigits n⟩

/-- std::to_string on an int. -/
def intStr (v : Int) : String :=
  if v < 0 then "-" ++ natStr v.natAbs else natStr v.toNat

/-- Truncation of a C int to its 32-bit DWORD payload (the four bytes
Preferences::write(key, int) hands to RegSetValueExA). -/
def intToDword (v : Int) : Nat := (v % 4294967296).toNat

/-- Reinterpretation of a DWORD payload as a C int (the cast in readInt). -/
def dwordToInt (d : Nat) : Int :=
  if d < 2147483648 then (d : Int) else (d : Int) - 4294967296

/-- The C cast size_t(v) for a 32-bit int v. -/
def sizeTOfInt (v : Int) : Nat := (v % 18446744073709551616).toNat

/-- The C cast int(m) for a 64-bit size_t m. -/
def intOfSizeT (m : Nat) : Int := dwordToInt (m % 4294967296)

/-- A logical key after splitSubKey: the container it names plus the leaf
value name ("" when the key ends in a separator, meaning the container
itself). -/
structure PKey where
  container : List String
  name : String

/-- The buffer size readString hands to RegGetValueA. -/
def MAX_PATH : Nat := 260

/-- Embedding of Preferences::readString (preferences.cpp:89-101): read a
REG_SZ value into a MAX_PATH buffer; any failure (absent container, absent
value, wrong type, value too long for the buffer) yields the default. -/
def readString (reg : Registry) (k : PKey) (defaultValue : String) : String :=
  match getValue reg k.container k.name with
  | some (.str s) => if s.length < MAX_PATH then s else defaultValue
  | _ => defaultValue

/-- Embedding of Preferences::readInt (preferences.cpp:103-113): read a
REG_DWORD value; any failure (absent container, absent value, wrong type)
yields the default. -/
def readInt (reg : Registry) (k : PKey) (defaultValue : Int) : Int :=
  match getValue reg k.container k.name with
  | some (.dword d) => dwordToInt d
  | _ => defaultValue

/-- Embedding of Preferences::write(key, string) (preferences.cpp:53-59). -/
def writeString (reg : Registry) (k : PKey) (value : String) : Registry :=
  setValue reg k.container k.name (.str value)

/-- Embedding of Preferences::write(key, int) (preferences.cpp:61-69). -/
def writeInt (reg : Registry) (k : PKey) (value : Int) : Registry :=
  setValue reg k.container k.name (.dword (intToDword value))

/-- Embedding of Preferences::deleteKey (preferences.cpp:132-155): a key whose
leaf is empty (trailing separator) deletes the whole container subtree,
otherwise only the named value is deleted. -/
def deleteKey (reg : Registry) (k : PKey) : Registry :=
  if k.name = "" then deleteTree reg k.container
  else eraseValue reg k.container k.name

/-- Embedding of Preferences::move (preferences.cpp:157-196) with the backend
outcomes exposed: `createOk` is RegCreateKeyExA on the destination, `copyOk`
is copyTree, and `partialWrites` are the writes a failed copy performed before
giving up (modelled from the spec, 4.3: a failed copy leaves the destination
partially written).  On full success the code calls deleteKey(keyFrom); since
keyFrom has no trailing separator, splitSubKey makes that delete the *value*
named after the last segment inside the parent container - not the source
subtree. -/
def moveEx (reg : Registry) (keyFrom keyTo : List String)
    (createOk copyOk : Bool) (partialWrites : List RegEntry) : Registry :=
  if containerExists reg keyFrom then
    if createOk then
      if copyOk then
        deleteKey (copyTree reg keyFrom keyTo) ⟨keyFrom.dropLast, keyFrom.getLastD ""⟩
      else applyWrites reg partialWrites
    else reg
  else reg

/-- Preferences::move on a reliable backend (create and copy succeed). -/
def move (reg : Registry) (keyFrom keyTo : List String) : Registry :=
  moveEx reg keyFrom keyTo true true []

/-- Embedding of Preferences::splitSubKey (preferences.cpp:547-562), kept at
the string level: container := REG_PREFIX, then if the key has a backslash the
container becomes REG_PREFIX ++ "\\" ++ (everything before the last backslash)
and the leaf is everything after it (empty for a trailing backslash),
otherwise the whole key is the leaf. -/
def REG_PREFIX : String := "SOFTWARE\\Webcamoid\\VirtualCamera\\"

/-- Index of the last occurrence of a character (std::string::rfind). -/
def lastIdxOf (c : Char) : List Char → Option Nat
  | [] => none
  | x :: xs =>
    match lastIdxOf c xs with
    | some i => some (i + 1)
    | none => if x = c then some 0 else none

/-- Embedding of Preferences::splitSubKey (preferences.cpp:547-562). -/
def splitSubKey (key : String) : String × String :=
  match lastIdxOf '\\' key.data with
  | none => (REG_PREFIX, key)
  | some sep =>
    (REG_PREFIX ++ "\\" ++ ⟨key.data.take sep⟩,
     if sep + 1 < key.data.length then ⟨key.data.drop (sep + 1)⟩ else "")

namespace Preferences

/-- Modelled from the spec: VideoFormat (VCamUtils, not under src/).  Per the
spec data model (3. Format), a format is a four-character pixel-layout code
kept as text, integer width and height, and a frame rate stored as text that
round-trips through parse/format without loss; accordingly
VideoFormat::stringFromFourcc / fourccFromString and
Fraction::toString / Fraction-from-string are modelled as identities and the
serialized fields are carried directly. -/
structure VideoFormat where
  fourcc : String
  width : Int
  height : Int
  fps : String
deriving DecidableEq

/-- Modelled from the spec: VideoFormat's boolean conversion (VCamUtils, not
under src/).  The spec (8. Default-on-miss) calls the format read from an
out-of-range index "an invalid/empty format": a format with an empty
four-character code or non-positive dimensions is invalid. -/
def VideoFormat.isValid (f : VideoFormat) : Bool :=
  decide (f.fourcc ≠ "" ∧ 0 < f.width ∧ 0 < f.height)

/-- Embedding of Preferences::camerasCount (preferences.cpp:282-289); the
default value 0 of readInt's second parameter is modelled from the spec
(4.5: "reads the authoritative count value, default 0"). -/
def camerasCount (reg : Registry) : Nat :=
  sizeTOfInt (readInt reg ⟨["Cameras"], "size"⟩ 0)

/-- Embedding of Preferences::cameraPath (preferences.cpp:375-380), reading
"Cameras\\<index+1>\\path". -/
def cameraPath (reg : Registry) (cameraIndex : Nat) : String :=
  readString reg ⟨["Cameras", natStr (cameraIndex + 1)], "path"⟩ ""

/-- Embedding of Preferences::cameraDescription (preferences.cpp:355-363). -/
def cameraDescription (reg : Registry) (cameraIndex : Nat) : String :=
  if cameraIndex ≥ camerasCount reg then ""
  else readString reg ⟨["Cameras", natStr (cameraIndex + 1)], "description"⟩ ""

/-- Embedding of Preferences::cameraFromPath (preferences.cpp:337-344): linear
scan over 0 ≤ i < camerasCount for the first i with cameraPath i = path,
else -1. -/
def cameraFromPath (reg : Registry) (path : String) : Int :=
  match (List.range (camerasCount reg)).find? (fun i => cameraPath reg i == path) with
  | some i => (i : Int)
  | none => -1

/-- Embedding of Preferences::cameraExists (preferences.cpp:346-353). -/
def cameraExists (reg : Registry) (path : String) : Bool :=
  (List.range (camerasCount reg)).any (fun i => cameraPath reg i == path)

/-- Embedding of Preferences::formatsCount (preferences.cpp:382-387), reading
"Cameras\\<index+1>\\Formats\\size". -/
def formatsCount (reg : Registry) (cameraIndex : Nat) : Nat :=
  sizeTOfInt (readInt reg ⟨["Cameras", natStr (cameraIndex + 1), "Formats"], "size"⟩ 0)

/-- Embedding of Preferences::cameraFormat (preferences.cpp:389-404), reading
the four serialized fields under
"Cameras\\<cameraIndex+1>\\Formats\\<formatIndex+1>". -/
def cameraFormat (reg : Registry) (cameraIndex formatIndex : Nat) : VideoFormat :=
  let pre : List String :=
    ["Cameras", natStr (cameraIndex + 1), "Formats", natStr (formatIndex + 1)]
  { fourcc := readString reg ⟨pre, "format"⟩ ""
    width := readInt reg ⟨pre, "width"⟩ 0
    height := readInt reg ⟨pre, "height"⟩ 0
    fps := readString reg ⟨pre, "fps"⟩ "" }

/-- Embedding of Preferences::cameraFormats (preferences.cpp:406-419): read
formats 0 ≤ i < formatsCount, keeping only those whose boolean conversion is
true. -/
def cameraFormats (reg : Registry) (cameraIndex : Nat) : List VideoFormat :=
  ((List.range (formatsCount reg cameraIndex)).map
    (fun i => cameraFormat reg cameraIndex i)).filter VideoFormat.isValid

/-- The four writes serializing one format under the container `pre`
(the shared body of the format-writing loops in preferences.cpp). -/
def writeFormat (reg : Registry) (pre : List String) (format : VideoFormat) : Registry :=
  writeString
    (writeInt
      (writeInt
        (writeString reg ⟨pre, "format"⟩ format.fourcc)
        ⟨pre, "width"⟩ format.width)
      ⟨pre, "height"⟩ format.height)
    ⟨pre, "fps"⟩ format.fps

/-- The format-writing loop: for each list position i (0-based) write the
format under `preOf i`, where `preOf` builds the loop's key prefix. -/
def writeFormatListAux (preOf : Nat → List String) :
    Registry → Nat → List VideoFormat → Registry
  | reg, _, [] => reg
  | reg, i, f :: fs => writeFormatListAux preOf (writeFormat reg (preOf i) f) (i + 1) fs

/-- Runs the format-writing loop from position 0. -/
def writeFormatList (reg : Registry) (preOf : Nat → List String)
    (formats : List VideoFormat) : Registry :=
  writeFormatListAux preOf reg 0 formats

/-- std::vector::insert at position i (i ≤ length). -/
def insertAt (l : List VideoFormat) (i : Nat) (f : VideoFormat) : List VideoFormat :=
  l.take i ++ f :: l.drop i

/-- std::vector::erase at position i. -/
def eraseAt (l : List VideoFormat) (i : Nat) : List VideoFormat :=
  l.take i ++ l.drop (i + 1)

/-- Embedding of Preferences::cameraSetFormats (preferences.cpp:421-447):
guard on camerasCount, delete the whole Formats subtree
("Cameras\\<i+1>\\Formats\\" has a trailing separator), write the new size,
then write each format under "Cameras\\<i+1>\\Formats\\<k+1>". -/
def cameraSetFormats (reg : Registry) (cameraIndex : Nat)
    (formats : List VideoFormat) : Registry :=
  if cameraIndex ≥ camerasCount reg then reg
  else
    let reg1 := deleteKey reg ⟨["Cameras", natStr (cameraIndex + 1), "Formats"], ""⟩
    let reg2 := writeInt reg1 ⟨["Cameras", natStr (cameraIndex + 1), "Formats"], "size"⟩
      (intOfSizeT formats.length)
    writeFormatList reg2
      (fun i => ["Cameras", natStr (cameraIndex + 1), "Formats", natStr (i + 1)])
      formats

/-- Embedding of Preferences::cameraAddFormat (preferences.cpp:449-477): an
insertion index that is negative or greater than the current list length is
clamped to the length (append), then the grown list is written back under
"Cameras\\<cameraIndex+1>\\Formats\\<k+1>". -/
def cameraAddFormat (reg : Registry) (cameraIndex : Nat) (format : VideoFormat)
    (index : Int) : Registry :=
  let formats := cameraFormats reg cameraIndex
  let idx : Int := if index < 0 ∨ index > (formats.length : Int) then
    (formats.length : Int) else index
  let formats' := insertAt formats idx.toNat format
  let reg1 := writeInt reg ⟨["Cameras", natStr (cameraIndex + 1), "Formats"], "size"⟩
    (intOfSizeT formats'.length)
  writeFormatList reg1
    (fun i => ["Cameras", natStr (cameraIndex + 1), "Formats", natStr (i + 1)])
    formats'

/-- Embedding of Preferences::cameraRemoveFormat (preferences.cpp:479-505): a
removal index outside 0..length-1 returns without writing; otherwise the size
is written under "Cameras\\<cameraIndex+1>\\Formats" but the shrunk list is
written back under "Cameras\\<cameraIndex>\\Formats\\<k+1>" - the loop prefix
at line 495-498 uses cameraIndex where every sibling function uses
cameraIndex + 1. -/
def cameraRemoveFormat (reg : Registry) (cameraIndex : Nat) (index : Int) : Registry :=
  let formats := cameraFormats reg cameraIndex
  if index < 0 ∨ index ≥ (formats.length : Int) then reg
  else
    let formats' := eraseAt formats index.toNat
    let reg1 := writeInt reg ⟨["Cameras", natStr (cameraIndex + 1), "Formats"], "size"⟩
      (intOfSizeT formats'.length)
    writeFormatList reg1
      (fun i => ["Cameras", natStr cameraIndex, "Formats", natStr (i + 1)])
      formats'

/-- Modelled from the spec: listAllCameras (utils.cpp, not under src/) lists
the device CLSIDs in use, i.e. the derived identifiers of all registered
camera paths (spec 4.4); the platform transform createClsidFromStr is the
abstract parameter `clsidOf`. -/
def listAllCameras (clsidOf : String → String) (reg : Registry) : List String :=
  (List.range (camerasCount reg)).map (fun i => clsidOf (cameraPath reg i))

/-- The probe loop of Preferences::createDevicePath (preferences.cpp:305-319):
for i = pos..63 synthesize devicePfx ++ i, and return the first candidate
whose literal path is in neither list; past index 63 return "". -/
def probeDevicePathAux (devicePfx : String) (clsidOf : String → String)
    (cameraPaths cameraClsids : List String) : Nat → Nat → String
  | 0, _ => ""
  | fuel + 1, i =>
    if i < 64 then
      let path := devicePfx ++ natStr i
      let clsid := clsidOf path
      if !cameraPaths.contains path && !cameraClsids.contains clsid then path
      else probeDevicePathAux devicePfx clsidOf cameraPaths cameraClsids fuel (i + 1)
    else ""

/-- The probe loop entered at index i (fuel 64 - i is always sufficient, see
probeDevicePath_eq). -/
def probeDevicePath (devicePfx : String) (clsidOf : String → String)
    (cameraPaths cameraClsids : List String) (i : Nat) : String :=
  probeDevicePathAux devicePfx clsidOf cameraPaths cameraClsids (64 - i) i

/-- Embedding of Preferences::createDevicePath (preferences.cpp:291-320).
The fixed candidate prefix DSHOW_PLUGIN_DEVICE_PREFIX (a build-time define,
not under src/) is the abstract parameter `devicePfx`. -/
def createDevicePath (devicePfx : String) (clsidOf : String → String)
    (reg : Registry) : String :=
  let cameraPaths := (List.range (camerasCount reg)).map (fun i => cameraPath reg i)
  let cameraClsids := listAllCameras clsidOf reg
  probeDevicePath devicePfx clsidOf cameraPaths cameraClsids 0

/-- Embedding of Preferences::addDevice (preferences.cpp:198-209), which reads
the count from "Cameras\\size". -/
def addDevice (devicePfx : String) (clsidOf : String → String) (reg : Registry)
    (description : String) : String × Registry :=
  let path := createDevicePath devicePfx clsidOf reg
  let cameraIndex : Int := readInt reg ⟨["Cameras"], "size"⟩ 0 + 1
  let reg1 := writeInt reg ⟨["Cameras"], "size"⟩ cameraIndex
  let reg2 := writeString reg1 ⟨["Cameras", intStr cameraIndex], "description"⟩ description
  let reg3 := writeString reg2 ⟨["Cameras", intStr cameraIndex], "path"⟩ path
  (path, reg3)

/-- Embedding of Preferences::addCamera (preferences.cpp:217-256).  Note line
227: the new index comes from readInt("Cameras\\") - a key with a trailing
separator, i.e. the never-written default value of the "Cameras" container -
not from "Cameras\\size". -/
def addCamera (devicePfx : String) (clsidOf : String → String) (reg : Registry)
    (path description : String) (formats : List VideoFormat) : String × Registry :=
  if path ≠ "" ∧ cameraExists reg path then ("", reg)
  else
    let path_ := if path = "" then createDevicePath devicePfx clsidOf reg else path
    let cameraIndex : Int := readInt reg ⟨["Cameras"], ""⟩ 0 + 1
    let reg1 := writeInt reg ⟨["Cameras"], "size"⟩ cameraIndex
    let reg2 := writeString reg1 ⟨["Cameras", intStr cameraIndex], "description"⟩ description
    let reg3 := writeString reg2 ⟨["Cameras", intStr cameraIndex], "path"⟩ path_
    let reg4 := writeInt reg3 ⟨["Cameras", intStr cameraIndex, "Formats"], "size"⟩
      (intOfSizeT formats.length)
    let reg5 := writeFormatList reg4
      (fun i => ["Cameras", intStr cameraIndex, "Formats", natStr (i + 1)])
      formats
    (path_, reg5)

/-- The renumbering loop of Preferences::removeCamera (preferences.cpp:272-274):
for i = first..nCameras-1, move "Cameras\\<i+1>" onto "Cameras\\<i>". -/
def moveLoopAux : Nat → Registry → Nat → Nat → Registry
  | 0, reg, _, _ => reg
  | fuel + 1, reg, i, nCameras =>
    if i < nCameras then
      moveLoopAux fuel
        (move reg ["Cameras", natStr (i + 1)] ["Cameras", natStr i]) (i + 1) nCameras
    else reg

/-- The renumbering loop entered at index i (fuel nCameras - i is always
sufficient, see moveLoop_eq). -/
def moveLoop (reg : Registry) (i nCameras : Nat) : Registry :=
  moveLoopAux (nCameras - i) reg i nCameras

/-- Embedding of Preferences::removeCamera (preferences.cpp:258-280): resolve
the path to an index (no-op when absent), clear the camera's formats, delete
its subtree ("Cameras\\<i+1>\\" has a trailing separator), shift every higher
camera down with move, then decrement the count - or delete the whole
"Cameras\\" container when it was the last camera. -/
def removeCamera (reg : Registry) (path : String) : Registry :=
  let cameraIndex : Int := cameraFromPath reg path
  if cameraIndex < 0 then reg
  else
    let ci : Nat := cameraIndex.toNat
    let reg1 := cameraSetFormats reg ci []
    let nCameras := camerasCount reg1
    let reg2 := deleteKey reg1 ⟨["Cameras", natStr (ci + 1)], ""⟩
    let reg3 := moveLoop reg2 (ci + 1) nCameras
    if nCameras > 1 then
      writeInt reg3 ⟨["Cameras"], "size"⟩ (intOfSizeT (nCameras - 1))
    else deleteKey reg3 ⟨["Cameras"], ""⟩

/-- Pairwise key-distinctness of registry entries: the representation
invariant of the association-list registry (a real registry stores at most
one value per (container, name)). -/
def WF (reg : Registry) : Prop :=
  reg.Pairwise (fun a b => ¬(a.container = b.container ∧ a.name = b.name))

/-- The registry holds exactly the cameras with paths `ps` (in slot order):
the stored count is ps.length, slot j+1 stores path ps[j], paths are distinct
and short enough for readString's buffer, and the representation is
well-formed. -/
structure HoldsCameras (reg : Registry) (ps : List String) : Prop where
  wf : WF reg
  count_small : ps.length < 2147483648
  size_val : getValue reg ["Cameras"] "size" = some (.dword ps.length)
  path_val : ∀ j, j < ps.length →
    getValue reg ["Cameras", natStr (j + 1)] "path" = some (.str (ps.getD j ""))
  path_len : ∀ p ∈ ps, p.length < MAX_PATH
  nodup : ps.Nodup

/-- A demonstration format (640x480 RGB at 30 fps). -/
def fmtA : VideoFormat := ⟨"RGB0", 640, 480, "30/1"⟩

/-- A second demonstration format (800x600 RGB at 25 fps). -/
def fmtB : VideoFormat := ⟨"RGB1", 800, 600, "25/1"⟩

/-- A registry holding one camera (slot 1, path "p0") with the two formats
fmtA, fmtB stored at format slots 1 and 2. -/
def oneCamTwoFmts : Registry :=
  [⟨["Cameras"], "size", .dword 1⟩,
   ⟨["Cameras", "1"], "path", .str "p0"⟩,
   ⟨["Cameras", "1", "Formats"], "size", .dword 2⟩,
   ⟨["Cameras", "1", "Formats", "1"], "format", .str "RGB0"⟩,
   ⟨["Cameras", "1", "Formats", "1"], "width", .dword 640⟩,
   ⟨["Cameras", "1", "Formats", "1"], "height", .dword 480⟩,
   ⟨["Cameras", "1", "Formats", "1"], "fps", .str "30/1"⟩,
   ⟨["Cameras", "1", "Formats", "2"], "format", .str "RGB1"⟩,
   ⟨["Cameras", "1", "Formats", "2"], "width", .dword 800⟩,
   ⟨["Cameras", "1", "Formats", "2"], "height", .dword 600⟩,
   ⟨["Cameras", "1", "Formats", "2"], "fps", .str "25/1"⟩]

/-- A registry holding two cameras with paths "p0" and "p1". -/
def twoCams : Registry :=
  [⟨["Cameras"], "size", .dword 2⟩,
   ⟨["Cameras", "1"], "path", .str "p0"⟩,
   ⟨["Cameras", "1"], "description", .str "Cam A"⟩,
   ⟨["Cameras", "2"], "path", .str "p1"⟩,
   ⟨["Cameras", "2"], "description", .str "Cam B"⟩]

/-- A registry whose camera 1 claims one format but stores no format entry:
the stored entry reads back invalid. -/
def phantomFmt : Registry := [⟨["Cameras", "1", "Formats"], "size", .dword 1⟩]

/- Lemmas about decimal strings. -/

lemma natDigitsAux_congr : ∀ f₁ f₂ n, n < f₁ → n < f₂ →
    natDigitsAux f₁ n = natDigitsAux f₂ n := by
  intro f₁
  induction f₁ with
  | zero => intro f₂ n h; omega
  | succ f ih =>
    intro f₂ n h₁ h₂
    cases f₂ with
    | zero => omega
    | succ f' =>
      simp only [natDigitsAux]
      by_cases h10 : n < 10
      · simp [h10]
      · have hd : n / 10 < n := Nat.div_lt_self (by omega) (by omega)
        rw [if_neg h10, if_neg h10, ih f' (n / 10) (by omega) (by omega)]

lemma natDigits_eq (n : Nat) : natDigits n =
    if n < 10 then [Nat.digitChar n]
    else natDigits (n / 10) ++ [Nat.digitChar (n % 10)] := by
  show natDigitsAux (n + 1) n = _
  simp only [natDigitsAux]
  by_cases h10 : n < 10
  · simp [h10]
  · have hd : n / 10 < n := Nat.div_lt_self (by omega) (by omega)
    rw [if_neg h10, if_neg h10,
      natDigitsAux_congr n (n / 10 + 1) (n / 10) (by omega) (by omega)]
    rfl

lemma natDigits_ne_nil (n : Nat) : natDigits n ≠ [] := by
  rw [natDigits_eq]
  split
  · simp
  · simp

lemma digitChar_inj_lt : ∀ a < 10, ∀ b < 10, Nat.digitChar a = Nat.digitChar b → a = b := by
  decide

lemma digitChar_isDigit : ∀ a < 10, (Nat.digitChar a).isDigit = true := by
  decide

lemma natDigits_inj : ∀ a b, natDigits a = natDigits b → a = b := by
  intro a
  induction a using Nat.strong_induction_on with
  | _ a ih =>
    intro b h
    rw [natDigits_eq a, natDigits_eq b] at h
    by_cases ha : a < 10 <;> by_cases hb : b < 10
    · rw [if_pos ha, if_pos hb] at h
      simp only [List.cons.injEq] at h
      exact digitChar_inj_lt a ha b hb h.1
    · rw [if_pos ha, if_neg hb] at h
      have h1 := congrArg List.length h
      rw [List.length_append] at h1
      simp only [List.length_singleton] at h1
      exact absurd (List.length_eq_zero.mp (by omega)) (natDigits_ne_nil (b / 10))
    · rw [if_neg ha, if_pos hb] at h
      have h1 := congrArg List.length h
      rw [List.length_append] at h1
      simp only [List.length_singleton] at h1
      exact absurd (List.length_eq_zero.mp (by omega)) (natDigits_ne_nil (a / 10))
    · rw [if_neg ha, if_neg hb] at h
      obtain ⟨h1, h2⟩ := List.append_inj' h (by simp)
      simp only [List.cons.injEq] at h2
      have hmod : a % 10 = b % 10 :=
        digitChar_inj_lt (a % 10) (Nat.mod_lt _ (by omega)) (b % 10)
          (Nat.mod_lt _ (by omega)) h2.1
      have hdiv : a / 10 = b / 10 :=
        ih (a / 10) (Nat.div_lt_self (by omega) (by omega)) (b / 10) h1
      omega

lemma natStr_inj {a b : Nat} (h : natStr a = natStr b) : a = b :=
  natDigits_inj a b (by simpa [natStr] using congrArg String.data h)

lemma natDigits_isDigit : ∀ n, ∀ c ∈ natDigits n, c.isDigit = true := by
  intro n
  induction n using Nat.strong_induction_on with
  | _ n ih =>
    intro c hc
    rw [natDigits_eq] at hc
    by_cases h10 : n < 10
    · rw [if_pos h10] at hc
      simp only [List.mem_singleton] at hc
      subst hc
      exact digitChar_isDigit n h10
    · rw [if_neg h10] at hc
      rcases List.mem_append.mp hc with h | h
      · exact ih (n / 10) (Nat.div_lt_self (by omega) (by omega)) c h
      · simp only [List.mem_singleton] at h
        subst h
        exact digitChar_isDigit (n % 10) (Nat.mod_lt _ (by omega))

lemma natStr_ne {s : String} {c : Char} (hmem : c ∈ s.data) (hc : c.isDigit = false) :
    ∀ n, natStr n ≠ s := by
  intro n h
  have hd : natDigits n = s.data := by simpa [natStr] using congrArg String.data h
  have hm : c ∈ natDigits n := by rw [hd]; exact hmem
  have := natDigits_isDigit n c hm
  rw [hc] at this
  exact Bool.false_ne_true this

lemma natStr_ne_empty (n : Nat) : natStr n ≠ "" := by
  intro h
  exact natDigits_ne_nil n (by simpa [natStr] using congrArg String.data h)

lemma natStr_ne_size (n : Nat) : natStr n ≠ "size" :=
  natStr_ne (c := 's') (by decide) (by decide) n

lemma natStr_eq_iff {a b : Nat} : natStr a = natStr b ↔ a = b :=
  ⟨natStr_inj, fun h => h ▸ rfl⟩

/- Lemmas about the registry primitives. -/

lemma underTree_iff {root : List String} {e : RegEntry} :
    underTree root e = true ↔ root <+: e.container := by
  simp [underTree, List.isPrefixOf_iff_prefix]

lemma getValue_eraseValue_self (reg : Registry) (c : List String) (n : String) :
    getValue (eraseValue reg c n) c n = none := by
  induction reg with
  | nil => rfl
  | cons e es ih =>
    simp only [eraseValue]
    by_cases he : e.container = c ∧ e.name = n
    · rw [if_pos he]; exact ih
    · rw [if_neg he]
      simp only [getValue]
      rw [if_neg he]
      exact ih

lemma getValue_eraseValue_ne (reg : Registry) {c : List String} {n : String}
    {c' : List String} {n' : String} (h : ¬(c' = c ∧ n' = n)) :
    getValue (eraseValue reg c n) c' n' = getValue reg c' n' := by
  induction reg with
  | nil => rfl
  | cons e es ih =>
    simp only [eraseValue]
    by_cases he : e.container = c ∧ e.name = n
    · rw [if_pos he, ih]
      have hk : ¬(e.container = c' ∧ e.name = n') := by
        rintro ⟨h1, h2⟩
        exact h ⟨h1.symm.trans he.1, h2.symm.trans he.2⟩
      simp only [getValue]
      rw [if_neg hk]
    · rw [if_neg he]
      simp only [getValue]
      by_cases hk : e.container = c' ∧ e.name = n'
      · rw [if_pos hk, if_pos hk]
      · rw [if_neg hk, if_neg hk]
        exact ih

lemma getValue_setValue_self (reg : Registry) (c : List String) (n : String) (v : RegVal) :
    getValue (setValue reg c n v) c n = some v := by
  simp [setValue, getValue]

lemma getValue_setValue_ne (reg : Registry) {c : List String} {n : String} (v : RegVal)
    {c' : List String} {n' : String} (h : ¬(c' = c ∧ n' = n)) :
    getValue (setValue reg c n v) c' n' = getValue reg c' n' := by
  simp only [setValue, getValue]
  rw [if_neg (by rintro ⟨h1, h2⟩; exact h ⟨h1.symm, h2.symm⟩), getValue_eraseValue_ne reg h]

lemma getValue_deleteTree_of_under (reg : Registry) {root c : List String}
    (h : root <+: c) (n : String) :
    getValue (deleteTree reg root) c n = none := by
  induction reg with
  | nil => rfl
  | cons e es ih =>
    simp only [deleteTree]
    by_cases hu : underTree root e
    · rw [if_pos hu]; exact ih
    · rw [if_neg hu]
      simp only [getValue]
      have hk : ¬(e.container = c ∧ e.name = n) := by
        rintro ⟨h1, h2⟩
        exact hu (underTree_iff.mpr (h1 ▸ h))
      rw [if_neg hk]
      exact ih

lemma getValue_deleteTree_of_not_under (reg : Registry) {root c : List String}
    (h : ¬ root <+: c) (n : String) :
    getValue (deleteTree reg root) c n = getValue reg c n := by
  induction reg with
  | nil => rfl
  | cons e es ih =>
    simp only [deleteTree]
    by_cases hu : underTree root e
    · rw [if_pos hu, ih]
      have hk : ¬(e.container = c ∧ e.name = n) := by
        rintro ⟨h1, h2⟩
        exact h (h1 ▸ underTree_iff.mp hu)
      simp only [getValue]
      rw [if_neg hk]
    · rw [if_neg hu]
      simp only [getValue]
      by_cases hk : e.container = c ∧ e.name = n
      · rw [if_pos hk, if_pos hk]
      · rw [if_neg hk, if_neg hk]
        exact ih

lemma eraseValue_sublist (reg : Registry) (c : List String) (n : String) :
    (eraseValue reg c n).Sublist reg := by
  induction reg with
  | nil => simp [eraseValue]
  | cons e es ih =>
    simp only [eraseValue]
    by_cases he : e.container = c ∧ e.name = n
    · rw [if_pos he]; exact ih.cons e
    · rw [if_neg he]; exact ih.cons₂ e

lemma deleteTree_sublist (reg : Registry) (root : List String) :
    (deleteTree reg root).Sublist reg := by
  induction reg with
  | nil => simp [deleteTree]
  | cons e es ih =>
    simp only [deleteTree]
    by_cases hu : underTree root e
    · rw [if_pos hu]; exact ih.cons e
    · rw [if_neg hu]; exact ih.cons₂ e

lemma not_key_mem_eraseValue (reg : Registry) (c : List String) (n : String) :
    ∀ e ∈ eraseValue reg c n, ¬(e.container = c ∧ e.name = n) := by
  induction reg with
  | nil => simp [eraseValue]
  | cons e es ih =>
    simp only [eraseValue]
    by_cases he : e.container = c ∧ e.name = n
    · rw [if_pos he]; exact ih
    · rw [if_neg he]
      intro x hx
      rcases List.mem_cons.mp hx with rfl | hmem
      · exact he
      · exact ih x hmem

lemma WF_eraseValue {reg : Registry} (h : WF reg) (c : List String) (n : String) :
    WF (eraseValue reg c n) :=
  h.sublist (eraseValue_sublist reg c n)

lemma WF_deleteTree {reg : Registry} (h : WF reg) (root : List String) :
    WF (deleteTree reg root) :=
  h.sublist (deleteTree_sublist reg root)

lemma WF_setValue {reg : Registry} (h : WF reg) (c : List String) (n : String) (v : RegVal) :
    WF (setValue reg c n v) := by
  unfold WF setValue
  rw [List.pairwise_cons]
  refine ⟨?_, WF_eraseValue h c n⟩
  intro e he hk
  exact not_key_mem_eraseValue reg c n e he ⟨hk.1.symm, hk.2.symm⟩

lemma WF_deleteKey {reg : Registry} (h : WF reg) (k : PKey) : WF (deleteKey reg k) := by
  unfold deleteKey
  by_cases hn : k.name = ""
  · rw [if_pos hn]; exact WF_deleteTree h k.container
  · rw [if_neg hn]; exact WF_eraseValue h k.container k.name

lemma getValue_some_mem {reg : Registry} {c : List String} {n : String} {v : RegVal}
    (h : getValue reg c n = some v) : (⟨c, n, v⟩ : RegEntry) ∈ reg := by
  induction reg with
  | nil => simp [getValue] at h
  | cons e es ih =>
    simp only [getValue] at h
    by_cases hk : e.container = c ∧ e.name = n
    · rw [if_pos hk] at h
      obtain ⟨h1, h2⟩ := hk
      obtain ⟨ec, en, ev⟩ := e
      simp only at h1 h2
      simp only [Option.some.injEq] at h
      subst h1; subst h2; subst h
      exact List.mem_cons_self _ _
    · rw [if_neg hk] at h
      exact List.mem_cons_of_mem e (ih h)

lemma getValue_some_containerExists {reg : Registry} {c : List String} {n : String}
    {v : RegVal} (h : getValue reg c n = some v) : containerExists reg c = true := by
  unfold containerExists
  rw [List.any_eq_true]
  exact ⟨⟨c, n, v⟩, getValue_some_mem h, underTree_iff.mpr (by simp)⟩

lemma applyWrites_cons (reg : Registry) (e : RegEntry) (ws : List RegEntry) :
    applyWrites reg (e :: ws) = applyWrites (setValue reg e.container e.name e.val) ws := rfl

lemma getValue_applyWrites_of_no_key {ws : List RegEntry} {c : List String} {n : String}
    (reg : Registry) (hws : ∀ e ∈ ws, ¬(e.container = c ∧ e.name = n)) :
    getValue (applyWrites reg ws) c n = getValue reg c n := by
  induction ws generalizing reg with
  | nil => rfl
  | cons e ws ih =>
    rw [applyWrites_cons, ih _ (fun x hx => hws x (List.mem_cons_of_mem e hx))]
    exact getValue_setValue_ne reg e.val
      (fun hk => hws e (List.mem_cons_self e ws) ⟨hk.1.symm, hk.2.symm⟩)

lemma getValue_applyWrites_of_mem {ws : List RegEntry}
    (hpw : ws.Pairwise (fun a b => ¬(a.container = b.container ∧ a.name = b.name)))
    (reg : Registry) (e₀ : RegEntry) (he : e₀ ∈ ws) :
    getValue (applyWrites reg ws) e₀.container e₀.name = some e₀.val := by
  induction ws generalizing reg with
  | nil => cases he
  | cons e ws ih =>
    rw [applyWrites_cons]
    rcases List.mem_cons.mp he with rfl | hmem
    · rw [getValue_applyWrites_of_no_key _
        (fun x hx hk => (List.pairwise_cons.mp hpw).1 x hx ⟨hk.1.symm, hk.2.symm⟩)]
      exact getValue_setValue_self _ _ _ _
    · exact ih (List.pairwise_cons.mp hpw).2 _ hmem

lemma WF_applyWrites {reg : Registry} (h : WF reg) (ws : List RegEntry) :
    WF (applyWrites reg ws) := by
  induction ws generalizing reg with
  | nil => exact h
  | cons e ws ih => exact ih (WF_setValue h e.container e.name e.val)

/- Lemmas about copyTree, move and the loops. -/

lemma copyTree_writes_under {reg : Registry} {src dst : List String} {e' : RegEntry}
    (h : e' ∈ (reg.filter (underTree src)).map
      (fun e => (⟨dst ++ e.container.drop src.length, e.name, e.val⟩ : RegEntry))) :
    dst <+: e'.container := by
  obtain ⟨e, -, rfl⟩ := List.mem_map.mp h
  exact List.prefix_append _ _

lemma getValue_copyTree_of_not_under (reg : Registry) {src dst c : List String}
    (h : ¬ dst <+: c) (n : String) :
    getValue (copyTree reg src dst) c n = getValue reg c n := by
  unfold copyTree
  apply getValue_applyWrites_of_no_key
  intro e' he' hk
  exact h (hk.1 ▸ copyTree_writes_under he')

lemma copyTree_writes_pairwise {reg : Registry} (hwf : WF reg) (src dst : List String) :
    ((reg.filter (underTree src)).map
      (fun e => (⟨dst ++ e.container.drop src.length, e.name, e.val⟩ : RegEntry))).Pairwise
      (fun a b => ¬(a.container = b.container ∧ a.name = b.name)) := by
  rw [List.pairwise_map]
  have hf : (reg.filter (underTree src)).Pairwise
      (fun a b => ¬(a.container = b.container ∧ a.name = b.name)) :=
    hwf.sublist (List.filter_sublist reg)
  refine hf.imp_of_mem ?_
  intro a b ha hb hab hk
  obtain ⟨ta, hta⟩ := underTree_iff.mp (List.mem_filter.mp ha).2
  obtain ⟨tb, htb⟩ := underTree_iff.mp (List.mem_filter.mp hb).2
  simp only at hk
  have h1 : a.container.drop src.length = b.container.drop src.length :=
    List.append_cancel_left hk.1
  rw [← hta, ← htb, List.drop_left, List.drop_left] at h1
  exact hab ⟨by rw [← hta, ← htb, h1], hk.2⟩

lemma getValue_copyTree_of_src {reg : Registry} (hwf : WF reg) {src : List String}
    (dst : List String) {suf : List String} {n : String} {v : RegVal}
    (h : getValue reg (src ++ suf) n = some v) :
    getValue (copyTree reg src dst) (dst ++ suf) n = some v := by
  unfold copyTree
  have hfil : (⟨src ++ suf, n, v⟩ : RegEntry) ∈ reg.filter (underTree src) := by
    rw [List.mem_filter]
    exact ⟨getValue_some_mem h, underTree_iff.mpr (List.prefix_append _ _)⟩
  have hmap : (⟨dst ++ suf, n, v⟩ : RegEntry) ∈ (reg.filter (underTree src)).map
      (fun e => (⟨dst ++ e.container.drop src.length, e.name, e.val⟩ : RegEntry)) := by
    refine List.mem_map.mpr ⟨_, hfil, ?_⟩
    simp [List.drop_left]
  exact getValue_applyWrites_of_mem (copyTree_writes_pairwise hwf src dst) reg _ hmap

lemma WF_copyTree {reg : Registry} (hwf : WF reg) (src dst : List String) :
    WF (copyTree reg src dst) :=
  WF_applyWrites hwf _

lemma WF_move {reg : Registry} (hwf : WF reg) (keyFrom keyTo : List String) :
    WF (move reg keyFrom keyTo) := by
  unfold move moveEx
  split
  · rw [if_pos rfl, if_pos rfl]
    exact WF_deleteKey (WF_copyTree hwf keyFrom keyTo) _
  · exact hwf

lemma moveLoop_eq (reg : Registry) (i nCameras : Nat) :
    moveLoop reg i nCameras =
      if i < nCameras then
        moveLoop (move reg ["Cameras", natStr (i + 1)] ["Cameras", natStr i])
          (i + 1) nCameras
      else reg := by
  unfold moveLoop
  by_cases h : i < nCameras
  · rw [if_pos h]
    have hf : nCameras - i = (nCameras - (i + 1)) + 1 := by omega
    rw [hf]
    simp only [moveLoopAux]
    rw [if_pos h]
  · rw [if_neg h, Nat.sub_eq_zero_of_le (Nat.le_of_not_lt h)]
    rfl

lemma WF_moveLoop {reg : Registry} (hwf : WF reg) (i nCameras : Nat) :
    WF (moveLoop reg i nCameras) := by
  generalize hd : nCameras - i = d
  induction d generalizing reg i with
  | zero =>
    rw [moveLoop_eq, if_neg (by omega)]
    exact hwf
  | succ d ih =>
    rw [moveLoop_eq, if_pos (by omega)]
    exact ih (WF_move hwf _ _) _ (by omega)

lemma probeDevicePath_eq (devicePfx : String) (clsidOf : String → String)
    (cameraPaths cameraClsids : List String) (i : Nat) :
    probeDevicePath devicePfx clsidOf cameraPaths cameraClsids i =
      if i < 64 then
        if !cameraPaths.contains (devicePfx ++ natStr i) &&
           !cameraClsids.contains (clsidOf (devicePfx ++ natStr i)) then
          devicePfx ++ natStr i
        else probeDevicePath devicePfx clsidOf cameraPaths cameraClsids (i + 1)
      else "" := by
  unfold probeDevicePath
  by_cases h : i < 64
  · rw [if_pos h]
    have hf : 64 - i = (64 - (i + 1)) + 1 := by omega
    rw [hf]
    simp only [probeDevicePathAux]
    rw [if_pos h]
  · rw [if_neg h, Nat.sub_eq_zero_of_le (Nat.le_of_not_lt h)]
    rfl

/- Lemmas about the typed adapter and index scans. -/

lemma readInt_of_dword {reg : Registry} {c : List String} {n : String} {d : Nat}
    (h : getValue reg c n = some (.dword d)) (hd : d < 2147483648) (dflt : Int) :
    readInt reg ⟨c, n⟩ dflt = (d : Int) := by
  unfold readInt
  rw [h]
  show dwordToInt d = (d : Int)
  unfold dwordToInt
  rw [if_pos hd]

lemma readInt_of_none {reg : Registry} {c : List String} {n : String}
    (h : getValue reg c n = none) (dflt : Int) :
    readInt reg ⟨c, n⟩ dflt = dflt := by
  unfold readInt
  rw [h]

lemma readString_of_str {reg : Registry} {c : List String} {n : String} {s : String}
    (h : getValue reg c n = some (.str s)) (hs : s.length < MAX_PATH) (dflt : String) :
    readString reg ⟨c, n⟩ dflt = s := by
  unfold readString
  rw [h]
  exact if_pos hs

lemma readString_of_none {reg : Registry} {c : List String} {n : String}
    (h : getValue reg c n = none) (dflt : String) :
    readString reg ⟨c, n⟩ dflt = dflt := by
  unfold readString
  rw [h]

lemma camerasCount_of_size {reg : Registry} {N : Nat}
    (h : getValue reg ["Cameras"] "size" = some (.dword N)) (hN : N < 2147483648) :
    camerasCount reg = N := by
  unfold camerasCount sizeTOfInt
  rw [readInt_of_dword h hN]
  omega

lemma camerasCount_of_none {reg : Registry}
    (h : getValue reg ["Cameras"] "size" = none) : camerasCount reg = 0 := by
  unfold camerasCount sizeTOfInt
  rw [readInt_of_none h]
  omega

lemma cameraPath_of {reg : Registry} {j : Nat} {p : String}
    (h : getValue reg ["Cameras", natStr (j + 1)] "path" = some (.str p))
    (hp : p.length < MAX_PATH) : cameraPath reg j = p :=
  readString_of_str h hp ""

lemma find?_append_of_some {α : Type} {l₁ l₂ : List α} {p : α → Bool} {x : α}
    (h : l₁.find? p = some x) : (l₁ ++ l₂).find? p = some x := by
  induction l₁ with
  | nil => simp [List.find?] at h
  | cons a l ih =>
    show ((a :: l) ++ l₂).find? p = some x
    rw [List.cons_append]
    by_cases hpa : p a = true
    · rw [List.find?_cons_of_pos _ hpa] at h
      rw [List.find?_cons_of_pos _ hpa]
      exact h
    · rw [List.find?_cons_of_neg _ hpa] at h
      rw [List.find?_cons_of_neg _ hpa]
      exact ih h

lemma find?_append_of_none {α : Type} {l₁ : List α} (l₂ : List α) {p : α → Bool}
    (h : l₁.find? p = none) : (l₁ ++ l₂).find? p = l₂.find? p := by
  induction l₁ with
  | nil => simp
  | cons a l ih =>
    show ((a :: l) ++ l₂).find? p = l₂.find? p
    rw [List.cons_append]
    by_cases hpa : p a = true
    · rw [List.find?_cons_of_pos _ hpa] at h
      cases h
    · rw [List.find?_cons_of_neg _ hpa] at h
      rw [List.find?_cons_of_neg _ hpa]
      exact ih h

lemma find?_range_eq_some {n : Nat} {p : Nat → Bool} {i : Nat} (hi : i < n)
    (hp : p i = true) (hmin : ∀ j, j < i → p j = false) :
    (List.range n).find? p = some i := by
  induction n with
  | zero => omega
  | succ n ih =>
    rw [List.range_succ]
    by_cases hin : i < n
    · exact find?_append_of_some (ih hin)
    · have hie : i = n := by omega
      subst hie
      rw [find?_append_of_none _ ?hnone]
      · rw [List.find?_cons_of_pos _ hp]
      case hnone =>
        rw [List.find?_eq_none]
        intro x hx
        rw [List.mem_range] at hx
        simp [hmin x hx]

lemma find?_range_eq_none {n : Nat} {p : Nat → Bool}
    (h : ∀ j, j < n → p j = false) : (List.range n).find? p = none := by
  rw [List.find?_eq_none]
  intro x hx
  rw [List.mem_range] at hx
  simp [h x hx]

/- Claim theorems: the easy claims. -/

/-- C6: for every key and every default value, readInt and readString return
the caller-supplied default whenever opening the containing key or reading the
value fails; the model folds "key absent" and "container absent" into one
failure (getValue = none), so no distinction between them is observable. -/
theorem claim_C6 (reg : Registry) (c : List String) (n : String) (di : Int) (ds : String)
    (h : getValue reg c n = none) :
    readInt reg ⟨c, n⟩ di = di ∧ readString reg ⟨c, n⟩ ds = ds :=
  ⟨readInt_of_none h di, readString_of_none h ds⟩

theorem claim_C6_witness :
    readInt ([] : Registry) ⟨[], "nonexistent"⟩ 42 = 42 ∧
    readString ([] : Registry) ⟨[], "nonexistent"⟩ "fallback" = "fallback" :=
  ⟨(claim_C6 [] [] "nonexistent" 42 "fallback" rfl).1,
   (claim_C6 [] [] "nonexistent" 42 "fallback" rfl).2⟩

lemma lastIdxOf_eq_none {l : List Char} {c : Char} (h : c ∉ l) :
    lastIdxOf c l = none := by
  induction l with
  | nil => rfl
  | cons x xs ih =>
    simp only [lastIdxOf, ih (fun hm => h (List.mem_cons_of_mem x hm))]
    rw [if_neg (fun he => h (by rw [← he]; exact List.mem_cons_self x xs))]

lemma lastIdxOf_append {la lb : List Char} (h : '\\' ∉ lb) :
    lastIdxOf '\\' (la ++ '\\' :: lb) = some la.length := by
  induction la with
  | nil =>
    show (match lastIdxOf '\\' lb with
          | some i => some (i + 1)
          | none => if '\\' = '\\' then some 0 else none) = some 0
    rw [lastIdxOf_eq_none h]
    simp
  | cons x xs ih =>
    show (match lastIdxOf '\\' (xs ++ '\\' :: lb) with
          | some i => some (i + 1)
          | none => if x = '\\' then some 0 else none) = some (xs.length + 1)
    rw [ih]

/-- C8: splitSubKey of a key with no backslash yields (REG_PREFIX, key); for a
key of the form a ++ "\\" ++ b with b backslash-free (so the shown backslash is
the last one), it yields container REG_PREFIX ++ "\\" ++ a and leaf b, the leaf
being empty exactly for a trailing separator (b = ""). -/
theorem claim_C8 :
    (∀ key : String, '\\' ∉ key.data → splitSubKey key = (REG_PREFIX, key)) ∧
    (∀ a b : String, '\\' ∉ b.data →
      splitSubKey (a ++ "\\" ++ b) = (REG_PREFIX ++ "\\" ++ a, b)) := by
  constructor
  · intro key h
    unfold splitSubKey
    rw [lastIdxOf_eq_none h]
  · intro a b h
    unfold splitSubKey
    have hbs : ("\\" : String).data = ['\\'] := rfl
    have hdata : (a ++ "\\" ++ b).data = a.data ++ '\\' :: b.data := by
      rw [String.data_append, String.data_append, hbs, List.append_assoc]
      rfl
    rw [hdata]
    simp only [lastIdxOf_append h]
    rw [List.take_left]
    have hlen : (a.data ++ '\\' :: b.data).length = a.data.length + 1 + b.data.length := by
      rw [List.length_append, List.length_cons]
      omega
    by_cases hb : b.data.length = 0
    · rw [if_neg (by rw [hlen]; omega)]
      have hbnil : b.data = [] := List.length_eq_zero.mp hb
      have hb' : b = "" := by
        obtain ⟨bd⟩ := b
        simp only at hbnil
        rw [hbnil]
      rw [hb']
    · rw [if_pos (by rw [hlen]; omega)]
      have hdrop : (a.data ++ '\\' :: b.data).drop (a.data.length + 1) = b.data := by
        rw [List.append_cons]
        have hl : a.data.length + 1 = (a.data ++ ['\\']).length := by simp
        rw [hl, List.drop_left]
      rw [hdrop]

theorem claim_C8_witness :
    splitSubKey "picture" = (REG_PREFIX, "picture") ∧
    splitSubKey ("Cameras\\1" ++ "\\" ++ "path") =
      (REG_PREFIX ++ "\\" ++ "Cameras\\1", "path") ∧
    splitSubKey ("Cameras" ++ "\\" ++ "") = (REG_PREFIX ++ "\\" ++ "Cameras", "") :=
  ⟨claim_C8.1 "picture" (by decide),
   claim_C8.2 "Cameras\\1" "path" (by decide),
   claim_C8.2 "Cameras" "" (by decide)⟩

/-- C3: addCamera with a non-empty path that is already stored as some
registered camera's path returns the empty string and leaves the registry
unchanged. -/
theorem claim_C3 (devicePfx : String) (clsidOf : String → String) (reg : Registry)
    (path description : String) (formats : List VideoFormat)
    (hne : path ≠ "")
    (hreg : ∃ j, j < camerasCount reg ∧ cameraPath reg j = path) :
    addCamera devicePfx clsidOf reg path description formats = ("", reg) := by
  have hex : cameraExists reg path = true := by
    unfold cameraExists
    rw [List.any_eq_true]
    obtain ⟨j, hj, hp⟩ := hreg
    exact ⟨j, List.mem_range.mpr hj, by simp [hp]⟩
  unfold addCamera
  rw [if_pos ⟨hne, hex⟩]

theorem claim_C3_witness :
    addCamera "AkDev" id twoCams "p0" "X" [] = ("", twoCams) :=
  claim_C3 "AkDev" id twoCams "p0" "X" [] (by decide) ⟨0, by decide, by decide⟩

/-- C9: cameraAddFormat clamps an out-of-range insertion index (negative or
greater than the current format-list length) to appending at the end, and
cameraRemoveFormat with an index outside 0..length-1 changes nothing. -/
theorem claim_C9 (reg : Registry) (cameraIndex : Nat) (format : VideoFormat) (index : Int) :
    ((index < 0 ∨ ((cameraFormats reg cameraIndex).length : Int) < index) →
      cameraAddFormat reg cameraIndex format index =
        cameraAddFormat reg cameraIndex format
          ((cameraFormats reg cameraIndex).length : Int)) ∧
    ((index < 0 ∨ ((cameraFormats reg cameraIndex).length : Int) ≤ index) →
      cameraRemoveFormat reg cameraIndex index = reg) := by
  constructor
  · intro h
    simp only [cameraAddFormat]
    rw [if_pos (by rcases h with h | h; exact Or.inl h; exact Or.inr h),
      if_neg (by rintro (h' | h') <;> omega)]
  · intro h
    simp only [cameraRemoveFormat]
    rw [if_pos (by rcases h with h | h; exact Or.inl h; exact Or.inr h)]

theorem claim_C9_witness :
    cameraAddFormat ([] : Registry) 0 fmtA 5 =
      cameraAddFormat ([] : Registry) 0 fmtA
        ((cameraFormats ([] : Registry) 0).length : Int) ∧
    cameraRemoveFormat ([] : Registry) 0 5 = [] :=
  ⟨(claim_C9 [] 0 fmtA 5).1 (Or.inr (by decide)),
   (claim_C9 [] 0 fmtA 5).2 (Or.inr (by decide))⟩

/-- C10: every format returned by cameraFormats is valid (invalid stored
entries are silently skipped), and the returned list can be strictly shorter
than formatsCount - witnessed by a registry whose camera claims one format but
stores none. -/
theorem claim_C10 :
    (∀ (reg : Registry) (cameraIndex : Nat) (f : VideoFormat),
      f ∈ cameraFormats reg cameraIndex → f.isValid = true) ∧
    (cameraFormats phantomFmt 0).length < formatsCount phantomFmt 0 := by
  constructor
  · intro reg ci f hf
    exact (List.mem_filter.mp hf).2
  · decide

theorem claim_C10_witness :
    VideoFormat.isValid (cameraFormat oneCamTwoFmts 0 0) = true :=
  claim_C10.1 oneCamTwoFmts 0 (cameraFormat oneCamTwoFmts 0 0) (by decide)

/-- C7: move deletes from the source only after a fully successful copy; on
every failing execution (source container absent, destination creation failed,
or copy failed) every value in the source subtree reads back unchanged.  The
partial writes of a failed copy land outside the source subtree (spec 4.3: a
failed copy leaves the source untouched, destination partially written). -/
theorem claim_C7 (reg : Registry) (keyFrom keyTo : List String)
    (createOk copyOk : Bool) (partialWrites : List RegEntry)
    (hpw : ∀ e ∈ partialWrites, ¬ keyFrom <+: e.container)
    (hfail : containerExists reg keyFrom = false ∨ createOk = false ∨ copyOk = false)
    (c : List String) (n : String) (hc : keyFrom <+: c) :
    getValue (moveEx reg keyFrom keyTo createOk copyOk partialWrites) c n =
      getValue reg c n := by
  unfold moveEx
  rcases hfail with h | h | h
  · rw [if_neg (by simp [h])]
  · by_cases hex : containerExists reg keyFrom = true
    · rw [if_pos hex, h]
      simp
    · rw [if_neg hex]
  · by_cases hex : containerExists reg keyFrom = true
    · rw [if_pos hex, h]
      cases createOk
      · simp
      · simp only [if_true, Bool.false_eq_true, if_false]
        exact getValue_applyWrites_of_no_key reg
          (fun e he hk => hpw e he (hk.1 ▸ hc))
    · rw [if_neg hex]

theorem claim_C7_witness :
    getValue (moveEx [⟨["A"], "v", RegVal.str "x"⟩] ["A"] ["B"] false true [])
        ["A"] "v" =
      getValue [⟨["A"], "v", RegVal.str "x"⟩] ["A"] "v" :=
  claim_C7 _ ["A"] ["B"] false true [] (by simp) (Or.inr (Or.inl rfl)) ["A"] "v"
    (List.prefix_refl _)

lemma probeDevicePath_find (devicePfx : String) (clsidOf : String → String)
    (paths clsids : List String) :
    ∀ d i, 64 - i = d →
    probeDevicePath devicePfx clsidOf paths clsids i =
      (match (List.range' i d).find? (fun t =>
          !paths.contains (devicePfx ++ natStr t) &&
          !clsids.contains (clsidOf (devicePfx ++ natStr t))) with
        | some t => devicePfx ++ natStr t
        | none => "") := by
  intro d
  induction d with
  | zero =>
    intro i hi
    rw [probeDevicePath_eq, if_neg (by omega)]
    rfl
  | succ d ih =>
    intro i hi
    rw [probeDevicePath_eq, if_pos (by omega)]
    rw [List.range'_succ]
    by_cases hp : (!paths.contains (devicePfx ++ natStr i) &&
        !clsids.contains (clsidOf (devicePfx ++ natStr i))) = true
    · rw [if_pos hp]
      have hfind : List.find? (fun t => !paths.contains (devicePfx ++ natStr t) &&
          !clsids.contains (clsidOf (devicePfx ++ natStr t)))
          (i :: List.range' (i + 1) d) = some i := by
        simp only [List.find?]
        rw [hp]
      rw [hfind]
    · rw [if_neg hp]
      have hpf : (!paths.contains (devicePfx ++ natStr i) &&
          !clsids.contains (clsidOf (devicePfx ++ natStr i))) = false := by
        simpa using hp
      have hfind : List.find? (fun t => !paths.contains (devicePfx ++ natStr t) &&
          !clsids.contains (clsidOf (devicePfx ++ natStr t)))
          (i :: List.range' (i + 1) d) =
          List.find? (fun t => !paths.contains (devicePfx ++ natStr t) &&
            !clsids.contains (clsidOf (devicePfx ++ natStr t)))
          (List.range' (i + 1) d) := by
        simp only [List.find?]
        rw [hpf]
      rw [ih (i + 1) (by omega), hfind]

/-- C4: createDevicePath probes the candidates devicePfx ++ i for i = 0..63 in
increasing order and returns the first one whose literal path is absent from
the registered camera paths and whose derived identifier is absent from the
derived identifiers of all registered paths; if none of the 64 qualifies it
returns "". -/
theorem claim_C4 (devicePfx : String) (clsidOf : String → String) (reg : Registry) :
    createDevicePath devicePfx clsidOf reg =
      (match (List.range 64).find? (fun i =>
          !((List.range (camerasCount reg)).map (fun j => cameraPath reg j)).contains
            (devicePfx ++ natStr i) &&
          !(((List.range (camerasCount reg)).map (fun j => cameraPath reg j)).map
              clsidOf).contains (clsidOf (devicePfx ++ natStr i))) with
        | some i => devicePfx ++ natStr i
        | none => "") := by
  have hl : listAllCameras clsidOf reg =
      ((List.range (camerasCount reg)).map (fun j => cameraPath reg j)).map clsidOf := by
    unfold listAllCameras
    rw [List.map_map]
    rfl
  simp only [createDevicePath]
  rw [hl, probeDevicePath_find devicePfx clsidOf _ _ 64 0 rfl, ← List.range_eq_range']

/-- C2: the claim describes addCamera as reading the authoritative count
("Cameras\\size") and appending at count+1, so that a second add on a
one-camera registry yields count 2.  The code instead reads the key
"Cameras\\" - the never-written default value of the Cameras container - so
the computed index is always 0 + 1 = 1: the second addCamera overwrites camera
1 and the count stays 1 (while the sibling addDevice at preferences.cpp:202
does read "Cameras\\size").  This theorem evaluates the embedded code on the
claim's own scenario. -/
theorem claim_C2_eval :
    camerasCount (addCamera "AkDev" id [] "" "Cam A" [fmtA]).2 = 1 ∧
    getValue (addCamera "AkDev" id [] "" "Cam A" [fmtA]).2 ["Cameras"] "" = none ∧
    camerasCount
      (addCamera "AkDev" id (addCamera "AkDev" id [] "" "Cam A" [fmtA]).2
        "" "Cam B" [fmtB]).2 = 1 ∧
    cameraDescription
      (addCamera "AkDev" id (addCamera "AkDev" id [] "" "Cam A" [fmtA]).2
        "" "Cam B" [fmtB]).2 0 = "Cam B" := by
  decide

/-- C5: the claim says cameraRemoveFormat leaves the format entries at indices
1..size under the *same* camera holding the new format list.  On the registry
oneCamTwoFmts (camera 1 with formats fmtA, fmtB), removing index 0 should
leave entry 1 = fmtB; the code writes the new size under camera 1 but rewrites
the format entries under "Cameras\\0\\Formats" (cameraIndex without the +1,
preferences.cpp:496), so entry 1 of camera 1 still reads back as fmtA and the
shrunk list lands in a ghost container. -/
theorem claim_C5_eval :
    cameraFormats oneCamTwoFmts 0 = [fmtA, fmtB] ∧
    formatsCount (cameraRemoveFormat oneCamTwoFmts 0 0) 0 = 1 ∧
    cameraFormat (cameraRemoveFormat oneCamTwoFmts 0 0) 0 0 = fmtA ∧
    getValue (cameraRemoveFormat oneCamTwoFmts 0 0)
      ["Cameras", "0", "Formats", "1"] "format" = some (.str "RGB1") := by
  decide

/- Infrastructure for the removeCamera reindexing proof (C1). -/

lemma not_prefix_of_length {l₁ l₂ : List String} (h : l₂.length < l₁.length) :
    ¬ l₁ <+: l₂ :=
  fun hp => absurd hp.length_le (by omega)

lemma camSeg_prefix_camSeg {a b : Nat} :
    ((["Cameras", natStr a] : List String) <+: ["Cameras", natStr b]) ↔ a = b := by
  constructor
  · intro hp
    rcases hp with ⟨t, ht⟩
    simp only [List.cons_append, List.nil_append, List.cons.injEq] at ht
    exact natStr_inj ht.2.1
  · rintro rfl
    exact List.prefix_refl _

lemma getD_mem {l : List String} {j : Nat} (hj : j < l.length) : l.getD j "" ∈ l := by
  rw [List.getD_eq_getElem _ _ hj]
  exact List.getElem_mem hj

lemma intToDword_intOfSizeT {m : Nat} (hm : m < 2147483648) :
    intToDword (intOfSizeT m) = m := by
  unfold intToDword intOfSizeT dwordToInt
  rw [Nat.mod_eq_of_lt (by omega), if_pos (by omega)]
  omega

lemma hc_count {reg : Registry} {ps : List String} (h : HoldsCameras reg ps) :
    camerasCount reg = ps.length :=
  camerasCount_of_size h.size_val h.count_small

lemma hc_path {reg : Registry} {ps : List String} (h : HoldsCameras reg ps)
    {j : Nat} (hj : j < ps.length) : cameraPath reg j = ps.getD j "" :=
  cameraPath_of (h.path_val j hj) (h.path_len _ (getD_mem hj))

lemma hc_fromPath {reg : Registry} {ps : List String} (h : HoldsCameras reg ps)
    {i : Nat} (hi : i < ps.length) :
    cameraFromPath reg (ps.getD i "") = (i : Int) := by
  unfold cameraFromPath
  rw [hc_count h, find?_range_eq_some hi ?hp ?hmin]
  case hp =>
    show (cameraPath reg i == ps.getD i "") = true
    rw [hc_path h hi]
    exact beq_self_eq_true _
  case hmin =>
    intro j hj
    have hjlt : j < ps.length := Nat.lt_trans hj hi
    show (cameraPath reg j == ps.getD i "") = false
    rw [hc_path h hjlt]
    refine beq_eq_false_iff_ne.mpr ?_
    rw [List.getD_eq_getElem _ _ hjlt, List.getD_eq_getElem _ _ hi]
    intro heq
    exact Nat.ne_of_lt hj (h.nodup.getElem_inj_iff.mp heq)

lemma hc_fromPath_notmem {reg : Registry} {ps : List String} (h : HoldsCameras reg ps)
    {q : String} (hq : q ∉ ps) : cameraFromPath reg q = -1 := by
  unfold cameraFromPath
  rw [hc_count h, find?_range_eq_none ?hall]
  case hall =>
    intro j hj
    show (cameraPath reg j == q) = false
    rw [hc_path h hj]
    exact beq_eq_false_iff_ne.mpr (fun heq => hq (heq ▸ getD_mem hj))

/-- Invariant of the renumbering loop: entering the loop at counter k with
slots 1..i holding their original paths, slots i+1..k-1 already shifted, and
slots k+1..N still original (slot k is unconstrained: it is the freshly
vacated destination), the finished loop leaves slots 1..i original and slots
i+1..N-1 shifted, preserving well-formedness and the stored count. -/
lemma moveLoop_invariant (ps : List String) (i : Nat) :
    ∀ d k (reg : Registry), ps.length - k = d → i + 1 ≤ k → k ≤ ps.length →
    WF reg →
    getValue reg ["Cameras"] "size" = some (.dword ps.length) →
    (∀ s, 1 ≤ s → s ≤ i →
      getValue reg ["Cameras", natStr s] "path" = some (.str (ps.getD (s - 1) ""))) →
    (∀ s, i + 1 ≤ s → s + 1 ≤ k →
      getValue reg ["Cameras", natStr s] "path" = some (.str (ps.getD s ""))) →
    (∀ s, k + 1 ≤ s → s ≤ ps.length →
      getValue reg ["Cameras", natStr s] "path" = some (.str (ps.getD (s - 1) ""))) →
    (WF (moveLoop reg k ps.length) ∧
     getValue (moveLoop reg k ps.length) ["Cameras"] "size" =
       some (.dword ps.length) ∧
     (∀ s, 1 ≤ s → s ≤ i →
       getValue (moveLoop reg k ps.length) ["Cameras", natStr s] "path" =
         some (.str (ps.getD (s - 1) ""))) ∧
     (∀ s, i + 1 ≤ s → s + 1 ≤ ps.length →
       getValue (moveLoop reg k ps.length) ["Cameras", natStr s] "path" =
         some (.str (ps.getD s "")))) := by
  intro d
  induction d with
  | zero =>
    intro k reg hd hk1 hkN hwf hsize hlow hmid hhigh
    rw [moveLoop_eq, if_neg (by omega)]
    exact ⟨hwf, hsize, hlow, fun s hs1 hs2 => hmid s hs1 (by omega)⟩
  | succ d ih =>
    intro k reg hd hk1 hkN hwf hsize hlow hmid hhigh
    rw [moveLoop_eq, if_pos (by omega)]
    have hsrc := hhigh (k + 1) (by omega) (by omega)
    rw [Nat.add_sub_cancel] at hsrc
    have hex : containerExists reg ["Cameras", natStr (k + 1)] = true :=
      getValue_some_containerExists hsrc
    have hdl : (["Cameras", natStr (k + 1)] : List String).dropLast = ["Cameras"] := rfl
    have hgl : (["Cameras", natStr (k + 1)] : List String).getLastD "" = natStr (k + 1) :=
      rfl
    have hmove : move reg ["Cameras", natStr (k + 1)] ["Cameras", natStr k] =
        eraseValue (copyTree reg ["Cameras", natStr (k + 1)] ["Cameras", natStr k])
          ["Cameras"] (natStr (k + 1)) := by
      unfold move moveEx deleteKey
      rw [if_pos hex]
      simp only [if_true, hdl, hgl]
      rw [if_neg (natStr_ne_empty (k + 1))]
    rw [hmove]
    have hwf₂ : WF (eraseValue
        (copyTree reg ["Cameras", natStr (k + 1)] ["Cameras", natStr k])
        ["Cameras"] (natStr (k + 1))) :=
      WF_eraseValue (WF_copyTree hwf _ _) _ _
    have hsize₂ : getValue (eraseValue
        (copyTree reg ["Cameras", natStr (k + 1)] ["Cameras", natStr k])
        ["Cameras"] (natStr (k + 1))) ["Cameras"] "size" = some (.dword ps.length) := by
      rw [getValue_eraseValue_ne _ (by rintro ⟨-, hn⟩; exact natStr_ne_size (k + 1) hn.symm),
        getValue_copyTree_of_not_under _ (not_prefix_of_length (by simp)) _]
      exact hsize
    have hlow₂ : ∀ s, 1 ≤ s → s ≤ i → getValue (eraseValue
        (copyTree reg ["Cameras", natStr (k + 1)] ["Cameras", natStr k])
        ["Cameras"] (natStr (k + 1))) ["Cameras", natStr s] "path" =
        some (.str (ps.getD (s - 1) "")) := by
      intro s h1 h2
      rw [getValue_eraseValue_ne _ (by rintro ⟨hcl, -⟩; simp at hcl),
        getValue_copyTree_of_not_under _ (by rw [camSeg_prefix_camSeg]; omega) _]
      exact hlow s h1 h2
    have hmid₂ : ∀ s, i + 1 ≤ s → s + 1 ≤ k + 1 → getValue (eraseValue
        (copyTree reg ["Cameras", natStr (k + 1)] ["Cameras", natStr k])
        ["Cameras"] (natStr (k + 1))) ["Cameras", natStr s] "path" =
        some (.str (ps.getD s "")) := by
      intro s h1 h2
      rw [getValue_eraseValue_ne _ (by rintro ⟨hcl, -⟩; simp at hcl)]
      by_cases hsk : s = k
      · subst hsk
        have hsrc' : getValue reg (["Cameras", natStr (s + 1)] ++ ([] : List String))
            "path" = some (.str (ps.getD s "")) := by
          rw [List.append_nil]
          exact hsrc
        have hcp := getValue_copyTree_of_src hwf ["Cameras", natStr s] hsrc'
        rw [List.append_nil] at hcp
        exact hcp
      · rw [getValue_copyTree_of_not_under _ (by rw [camSeg_prefix_camSeg]; omega) _]
        exact hmid s h1 (by omega)
    have hhigh₂ : ∀ s, (k + 1) + 1 ≤ s → s ≤ ps.length → getValue (eraseValue
        (copyTree reg ["Cameras", natStr (k + 1)] ["Cameras", natStr k])
        ["Cameras"] (natStr (k + 1))) ["Cameras", natStr s] "path" =
        some (.str (ps.getD (s - 1) "")) := by
      intro s h1 h2
      rw [getValue_eraseValue_ne _ (by rintro ⟨hcl, -⟩; simp at hcl),
        getValue_copyTree_of_not_under _ (by rw [camSeg_prefix_camSeg]; omega) _]
      exact hhigh s (by omega) h2
    exact ih (k + 1) _ (by omega) (by omega) (by omega) hwf₂ hsize₂ hlow₂ hmid₂ hhigh₂

lemma deleteKey_empty (reg : Registry) (c : List String) :
    deleteKey reg ⟨c, ""⟩ = deleteTree reg c := by
  unfold deleteKey
  rw [if_pos rfl]

/-- C1: on a registry holding N ≥ 1 cameras with pairwise-distinct stored
paths, removeCamera of the path at index i leaves camerasCount = N - 1 and
cameraPath j equal to the path previously at index j for j < i and previously
at index j+1 for j ≥ i; removeCamera of a path not in the registry changes
nothing.  (copyTree/deleteTree, which move uses, are spec-modelled: utils.cpp
is not under src/.) -/
theorem claim_C1 (reg : Registry) (ps : List String) (h : HoldsCameras reg ps) :
    (∀ i, i < ps.length →
      camerasCount (removeCamera reg (ps.getD i "")) = ps.length - 1 ∧
      (∀ j, j < ps.length - 1 →
        cameraPath (removeCamera reg (ps.getD i "")) j =
          if j < i then ps.getD j "" else ps.getD (j + 1) "")) ∧
    (∀ q, q ∉ ps → removeCamera reg q = reg) := by
  constructor
  · intro i hi
    have hci := hc_fromPath h hi
    have hsf : cameraSetFormats reg i [] =
        setValue (deleteTree reg ["Cameras", natStr (i + 1), "Formats"])
          ["Cameras", natStr (i + 1), "Formats"] "size" (.dword 0) := by
      unfold cameraSetFormats deleteKey writeInt writeFormatList writeFormatListAux
      rw [if_neg (by rw [hc_count h]; omega), if_pos rfl]
      rfl
    have hwf₁ : WF (cameraSetFormats reg i []) := by
      rw [hsf]
      exact WF_setValue (WF_deleteTree h.wf _) _ _ _
    have hsize₁ : getValue (cameraSetFormats reg i []) ["Cameras"] "size" =
        some (.dword ps.length) := by
      rw [hsf, getValue_setValue_ne _ _ (by rintro ⟨hcl, -⟩; simp at hcl),
        getValue_deleteTree_of_not_under _ (not_prefix_of_length (by simp)) _]
      exact h.size_val
    have hpath₁ : ∀ s, 1 ≤ s → s ≤ ps.length →
        getValue (cameraSetFormats reg i []) ["Cameras", natStr s] "path" =
          some (.str (ps.getD (s - 1) "")) := by
      intro s h1 h2
      rw [hsf, getValue_setValue_ne _ _ (by rintro ⟨hcl, -⟩; simp at hcl),
        getValue_deleteTree_of_not_under _ (not_prefix_of_length (by simp)) _]
      have hv := h.path_val (s - 1) (by omega)
      have hs : s - 1 + 1 = s := by omega
      rw [hs] at hv
      exact hv
    have hn : camerasCount (cameraSetFormats reg i []) = ps.length :=
      camerasCount_of_size hsize₁ h.count_small
    have hwf₂ : WF (deleteTree (cameraSetFormats reg i [])
        ["Cameras", natStr (i + 1)]) := WF_deleteTree hwf₁ _
    have hsize₂ : getValue (deleteTree (cameraSetFormats reg i [])
        ["Cameras", natStr (i + 1)]) ["Cameras"] "size" = some (.dword ps.length) := by
      rw [getValue_deleteTree_of_not_under _ (not_prefix_of_length (by simp)) _]
      exact hsize₁
    have hlow₂ : ∀ s, 1 ≤ s → s ≤ i →
        getValue (deleteTree (cameraSetFormats reg i []) ["Cameras", natStr (i + 1)])
          ["Cameras", natStr s] "path" = some (.str (ps.getD (s - 1) "")) := by
      intro s h1 h2
      rw [getValue_deleteTree_of_not_under _ (by rw [camSeg_prefix_camSeg]; omega) _]
      exact hpath₁ s h1 (by omega)
    have hhigh₂ : ∀ s, (i + 1) + 1 ≤ s → s ≤ ps.length →
        getValue (deleteTree (cameraSetFormats reg i []) ["Cameras", natStr (i + 1)])
          ["Cameras", natStr s] "path" = some (.str (ps.getD (s - 1) "")) := by
      intro s h1 h2
      rw [getValue_deleteTree_of_not_under _ (by rw [camSeg_prefix_camSeg]; omega) _]
      exact hpath₁ s (by omega) h2
    obtain ⟨hwf₃, hsize₃, hlow₃, hmid₃⟩ :=
      moveLoop_invariant ps i (ps.length - (i + 1)) (i + 1)
        (deleteTree (cameraSetFormats reg i []) ["Cameras", natStr (i + 1)]) rfl
        (Nat.le_refl _) (by omega) hwf₂ hsize₂ hlow₂
        (fun s h1 h2 => absurd h1 (by omega)) hhigh₂
    simp only [removeCamera]
    rw [hci]
    rw [if_neg (by omega)]
    simp only [Int.toNat_natCast, deleteKey_empty]
    rw [hn]
    by_cases hN1 : ps.length > 1
    · rw [if_pos hN1]
      constructor
      · refine camerasCount_of_size ?_ (by have := h.count_small; omega)
        unfold writeInt
        rw [getValue_setValue_self,
          intToDword_intOfSizeT (by have := h.count_small; omega)]
      · intro j hj
        have hslot : getValue
            (writeInt (moveLoop (deleteTree (cameraSetFormats reg i [])
                ["Cameras", natStr (i + 1)]) (i + 1) ps.length)
              ⟨["Cameras"], "size"⟩ (intOfSizeT (ps.length - 1)))
            ["Cameras", natStr (j + 1)] "path" =
            some (.str (if j < i then ps.getD j "" else ps.getD (j + 1) "")) := by
          unfold writeInt
          rw [getValue_setValue_ne _ _ (by rintro ⟨hcl, -⟩; simp at hcl)]
          by_cases hji : j < i
          · rw [if_pos hji]
            have hv := hlow₃ (j + 1) (by omega) (by omega)
            rw [Nat.add_sub_cancel] at hv
            exact hv
          · rw [if_neg hji]
            exact hmid₃ (j + 1) (by omega) (by omega)
        refine cameraPath_of hslot ?_
        apply h.path_len
        by_cases hji : j < i
        · rw [if_pos hji]
          exact getD_mem (by omega)
        · rw [if_neg hji]
          exact getD_mem (by omega)
    · rw [if_neg hN1]
      constructor
      · rw [camerasCount_of_none (getValue_deleteTree_of_under _ (List.prefix_refl _) _)]
        omega
      · intro j hj
        exact absurd hj (by omega)
  · intro q hq
    simp only [removeCamera]
    rw [hc_fromPath_notmem h hq]
    rw [if_pos (by norm_num)]

theorem claim_C1_witness :
    camerasCount (removeCamera twoCams "p0") = 1 ∧
    cameraPath (removeCamera twoCams "p0") 0 = "p1" ∧
    removeCamera twoCams "zz" = twoCams := by
  have hh : HoldsCameras twoCams ["p0", "p1"] :=
    ⟨by simp [WF, twoCams, List.pairwise_cons], by decide, by decide, by decide,
     by decide, by decide⟩
  refine ⟨((claim_C1 twoCams ["p0", "p1"] hh).1 0 (by decide)).1, ?_,
    (claim_C1 twoCams ["p0", "p1"] hh).2 "zz" (by decide)⟩
  have hv := ((claim_C1 twoCams ["p0", "p1"] hh).1 0 (by decide)).2 0 (by decide)
  simpa using hv

end Preferences

end AkVCam
